import Mathlib

/-!
Verification of the undo/redo history management of the drawing-board
repository (src/src/components/DrawingBoard.vue).

The component keeps two stacks of raster snapshots (`undoStack`,
`redoStack`, JS arrays where `push`/`pop` act on the end and `shift`
removes the first element), the canvas raster buffer (read via
`ctx.getImageData`, written via `ctx.putImageData`), a drawing flag
`isDrawing`, and a canvas 2d context `ctx` obtained once at mount.

We embed the component state shallowly.  Raster buffers are values of an
abstract type `α` (a buffer is compared only for equality, which models
pixel-identity).  The nullable `ctx` together with the nullable
`canvas.value` template ref are folded into one flag `hasCtx`: every
guard of the source checks them together (`if (!ctx || !canvas.value)
return`), and both are assigned once at mount and never reassigned.
Stroke coordinates, color and width only influence which pixels a stroke
paints; they are abstracted into the buffer value produced by a draw
step.
-/

namespace DrawingBoard

/-- Component state of DrawingBoard.vue: the two snapshot stacks, the
currently displayed raster buffer of the canvas, the context flag and the
`isDrawing` flag. -/
structure BoardState (α : Type) where
  undoStack : List α
  redoStack : List α
  display   : α
  hasCtx    : Bool
  isDrawing : Bool
  deriving Repr, DecidableEq

variable {α : Type}

/-- Source line 80: `const canUndo = computed(() => undoStack.value.length > 1)`. -/
def canUndo (s : BoardState α) : Bool :=
  decide (1 < s.undoStack.length)

/-- Source line 81: `const canRedo = computed(() => redoStack.value.length > 0)`. -/
def canRedo (s : BoardState α) : Bool :=
  decide (0 < s.redoStack.length)

/-- Source lines 113-122, `saveState()`: if the context or canvas is
missing, return; otherwise push the current buffer (`getImageData`) onto
the undo stack, clear the redo stack, and if the undo stack length now
exceeds 50, `shift()` (drop the first element). -/
def saveState (s : BoardState α) : BoardState α :=
  if s.hasCtx then
    let pushed := s.undoStack ++ [s.display]
    { s with
      undoStack := if 50 < pushed.length then pushed.tail else pushed
      redoStack := ([] : List α) }
  else s

/-- Source lines 124-136, `undo()`: if the context or canvas is missing
or `canUndo` is false, return; otherwise push the current buffer onto
the redo stack, `pop()` the undo stack, and `putImageData` the new last
element of the undo stack.  After the pop the undo stack is nonempty
(its length was at least 2), so the indexing `undoStack[length - 1]` of
the source always hits; `getLastD` with the old display as default is
the total rendering of that access. -/
def undo (s : BoardState α) : BoardState α :=
  if s.hasCtx && canUndo s then
    let popped := s.undoStack.dropLast
    { s with
      redoStack := s.redoStack ++ [s.display]
      undoStack := popped
      display   := popped.getLastD s.display }
  else s

/-- Source lines 138-149, `redo()`: if the context or canvas is missing
or `canRedo` is false, return; otherwise `pop()` a snapshot off the redo
stack, push the current buffer (`getImageData`) onto the undo stack, and
`putImageData` the popped snapshot.  The `pop` always succeeds under the
guard, so `getLastD` with the old display as default is the total
rendering of the non-null assertion `redoStack.value.pop()!`. -/
def redo (s : BoardState α) : BoardState α :=
  if s.hasCtx && canRedo s then
    { s with
      redoStack := s.redoStack.dropLast
      undoStack := s.undoStack ++ [s.display]
      display   := s.redoStack.getLastD s.display }
  else s

/-- Source lines 151-154, `startDrawing`: sets `isDrawing` to true and
records the mouse position (coordinates are not modelled: they only
influence which pixels the subsequent segments paint). -/
def startDrawing (s : BoardState α) : BoardState α :=
  { s with isDrawing := true }

/-- Source lines 156-166, `draw`: if not drawing or the context is
missing, return; otherwise stroke a segment on the canvas, which mutates
the displayed buffer.  The new buffer value `b` abstracts the result of
the rasterization (`handleTouchMove`, lines 178-193, performs the same
mutation for touch input). -/
def draw (b : α) (s : BoardState α) : BoardState α :=
  if s.isDrawing && s.hasCtx then { s with display := b } else s

/-- Source lines 195-200, `stopDrawing` (mouseup, mouseleave, touchend):
if `isDrawing`, call `saveState()` and reset `isDrawing`. -/
def stopDrawing (s : BoardState α) : BoardState α :=
  if s.isDrawing then { saveState s with isDrawing := false } else s

/-- Source lines 202-206, `clearCanvas`: if the context or canvas is
missing, return; otherwise `clearRect` the whole canvas (the displayed
buffer becomes the blank buffer) and call `saveState()`. -/
def clearCanvas (blank : α) (s : BoardState α) : BoardState α :=
  if s.hasCtx then saveState { s with display := blank } else s

/-- Source lines 208-223, `exportImage`: if the canvas ref is missing,
return; otherwise serialize the canvas to a PNG data URL and trigger a
client-side download.  Neither path touches the stacks, the buffer or
the flags, so on the modelled state both branches are the identity. -/
def exportImage (s : BoardState α) : BoardState α :=
  s

/-- A keydown event as consumed by `handleKeyDown`: the modifier flags
and the `key` string of the browser KeyboardEvent. -/
structure KeyEvent where
  ctrlKey  : Bool
  metaKey  : Bool
  shiftKey : Bool
  key      : String
  deriving Repr, DecidableEq

/-- JS `key.toLowerCase()` as used on line 100 of the source: lower-case
every character of the key string.  (Written as a structural map over
the character list so that it reduces by evaluation; on the one-letter
key values compared against, "z", "Z", "y" and "Y", this agrees with the
JS lowercase mapping.) -/
def lowerKey (k : String) : String :=
  String.mk (k.data.map Char.toLower)

/-- Source lines 99-111, `handleKeyDown`: on Ctrl/Meta with key
(lower-cased) "z", redo when Shift is held and undo otherwise; on
Ctrl/Meta with key (lower-cased) "y", redo; anything else falls
through. -/
def handleKeyDown (e : KeyEvent) (s : BoardState α) : BoardState α :=
  if (e.ctrlKey || e.metaKey) && (lowerKey e.key == "z") then
    if e.shiftKey then redo s else undo s
  else if (e.ctrlKey || e.metaKey) && (lowerKey e.key == "y") then
    redo s
  else s

/-- Source lines 83-93, `onMounted`: acquire the 2d context; when it is
available (hasCtx), call `saveState()`, which pushes the initial blank
canvas buffer.  The stacks start empty (lines 74-75) and `isDrawing`
starts false (line 71). -/
def mount (hasCtx : Bool) (blank : α) : BoardState α :=
  let s0 : BoardState α :=
    { undoStack := [], redoStack := [], display := blank
      hasCtx := hasCtx, isDrawing := false }
  if hasCtx then saveState s0 else s0

/-- One user-visible operation on the component.  `draw` carries the
buffer produced by rasterizing the segment, `clear` carries the blank
buffer produced by `clearRect`, `key` carries the keyboard event. -/
inductive Op (α : Type) where
  | save
  | undo
  | redo
  | start
  | draw (b : α)
  | stop
  | clear (blank : α)
  | exportImg
  | key (e : KeyEvent)
  deriving Repr, DecidableEq

/-- Interpretation of one operation on the component state. -/
def step : Op α → BoardState α → BoardState α
  | Op.save, s      => saveState s
  | Op.undo, s      => undo s
  | Op.redo, s      => redo s
  | Op.start, s     => startDrawing s
  | Op.draw b, s    => draw b s
  | Op.stop, s      => stopDrawing s
  | Op.clear b, s   => clearCanvas b s
  | Op.exportImg, s => exportImage s
  | Op.key e, s     => handleKeyDown e s

/-- Run a sequence of operations, oldest first. -/
def run (ops : List (Op α)) (s : BoardState α) : BoardState α :=
  ops.foldl (fun t o => step o t) s

/-- A state is reachable when some operation sequence leads to it from
the state left by `onMounted` (with either outcome of the context
acquisition and an arbitrary initial blank buffer). -/
def Reachable (s : BoardState α) : Prop :=
  ∃ (blank : α) (hasCtx : Bool) (ops : List (Op α)),
    s = run ops (mount hasCtx blank)

/-- A state is reachable from a successful mount (the context was
acquired, so the initial blank snapshot was pushed). -/
def ReachableCtx (blank : α) (s : BoardState α) : Prop :=
  ∃ ops : List (Op α), s = run ops (mount true blank)

/-- A state is reachable from a successful mount using only the three
history operations saveState, undo and redo. -/
def ReachableSUR (blank : α) (s : BoardState α) : Prop :=
  ∃ ops : List (Op α),
    (∀ o ∈ ops, o = Op.save ∨ o = Op.undo ∨ o = Op.redo) ∧
    s = run ops (mount true blank)

/-- One committed stroke: press, rasterize segments yielding buffer `b`,
release (which commits via `saveState`). -/
def commitStroke (b : α) (s : BoardState α) : BoardState α :=
  stopDrawing (draw b (startDrawing s))

/-- Operation sequence of a list of committed strokes: for each stroke,
mousedown, segment rasterization (yielding the buffer carried by the
stroke), mouseup. -/
def strokeOps : List α → List (Op α)
  | [] => []
  | b :: bs => Op.start :: Op.draw b :: Op.stop :: strokeOps bs

/-- Total number of snapshots held by the two stacks. -/
def histSize (s : BoardState α) : Nat :=
  s.undoStack.length + s.redoStack.length

/-- All buffers in the state are the blank mount-time buffer, the
context is available, and the undo stack is nonempty.  This is the
inductive strengthening behind the invariant that the last undo entry is
the displayed buffer when only the history operations run. -/
def AllBlank (blank : α) (s : BoardState α) : Prop :=
  s.hasCtx = true ∧ s.display = blank ∧
  (∀ x ∈ s.undoStack, x = blank) ∧ (∀ x ∈ s.redoStack, x = blank) ∧
  s.undoStack ≠ []

/-- Concrete state over `Nat` buffers used to instantiate the reachable
theorems: the state after the given operations from a successful mount
on a blank buffer `0`. -/
def demoState (ops : List (Op Nat)) : BoardState Nat :=
  run ops (mount true 0)

/-- Concrete state whose context acquisition failed, used to instantiate
the guard-failure theorems. -/
def noCtxState : BoardState Nat :=
  { undoStack := [3], redoStack := [], display := 4
    hasCtx := false, isDrawing := false }

/-- Concrete state with two snapshots on the undo stack, used to
instantiate the undo-redo roundtrip theorem. -/
def twoSnapshotState : BoardState Nat :=
  { undoStack := [3, 7], redoStack := [], display := 7
    hasCtx := true, isDrawing := false }

/-! ### Characterization lemmas for the individual handlers -/

theorem saveState_of_ctx (s : BoardState α) (h : s.hasCtx = true) :
    saveState s = { s with
      undoStack := if 50 < s.undoStack.length + 1
        then (s.undoStack ++ [s.display]).tail
        else s.undoStack ++ [s.display]
      redoStack := ([] : List α) } := by
  simp [saveState, h]

theorem saveState_no_ctx (s : BoardState α) (h : s.hasCtx = false) :
    saveState s = s := by
  simp [saveState, h]

theorem undo_of_ctx (s : BoardState α) (hc : s.hasCtx = true)
    (hu : 1 < s.undoStack.length) :
    undo s = { s with
      redoStack := s.redoStack ++ [s.display]
      undoStack := s.undoStack.dropLast
      display   := s.undoStack.dropLast.getLastD s.display } := by
  simp [undo, canUndo, hc, hu]

theorem undo_noop (s : BoardState α)
    (h : s.hasCtx = false ∨ s.undoStack.length ≤ 1) :
    undo s = s := by
  rcases h with h | h
  · simp [undo, h]
  · have : ¬ (1 < s.undoStack.length) := by omega
    simp [undo, canUndo, this]

theorem redo_of_ctx (s : BoardState α) (hc : s.hasCtx = true)
    (hr : 0 < s.redoStack.length) :
    redo s = { s with
      redoStack := s.redoStack.dropLast
      undoStack := s.undoStack ++ [s.display]
      display   := s.redoStack.getLastD s.display } := by
  simp [redo, canRedo, hc, hr]

theorem redo_noop (s : BoardState α)
    (h : s.hasCtx = false ∨ s.redoStack = []) :
    redo s = s := by
  rcases h with h | h
  · simp [redo, h]
  · simp [redo, canRedo, h]

theorem handleKeyDown_cases (e : KeyEvent) (s : BoardState α) :
    handleKeyDown e s = undo s ∨ handleKeyDown e s = redo s ∨
      handleKeyDown e s = s := by
  unfold handleKeyDown
  split
  · split
    · exact Or.inr (Or.inl rfl)
    · exact Or.inl rfl
  · split
    · exact Or.inr (Or.inl rfl)
    · exact Or.inr (Or.inr rfl)

/-! ### The context flag is assigned at mount and never changes -/

theorem hasCtx_saveState (s : BoardState α) : (saveState s).hasCtx = s.hasCtx := by
  unfold saveState; split <;> rfl

theorem hasCtx_undo (s : BoardState α) : (undo s).hasCtx = s.hasCtx := by
  unfold undo; split <;> rfl

theorem hasCtx_redo (s : BoardState α) : (redo s).hasCtx = s.hasCtx := by
  unfold redo; split <;> rfl

theorem hasCtx_step (o : Op α) (s : BoardState α) :
    (step o s).hasCtx = s.hasCtx := by
  cases o with
  | save => exact hasCtx_saveState s
  | undo => exact hasCtx_undo s
  | redo => exact hasCtx_redo s
  | start => rfl
  | draw b =>
    show (draw b s).hasCtx = s.hasCtx
    unfold draw; split <;> rfl
  | stop =>
    show (stopDrawing s).hasCtx = s.hasCtx
    unfold stopDrawing
    split
    · exact hasCtx_saveState s
    · rfl
  | clear b =>
    show (clearCanvas b s).hasCtx = s.hasCtx
    unfold clearCanvas
    split
    · exact hasCtx_saveState _
    · rfl
  | exportImg => rfl
  | key e =>
    show (handleKeyDown e s).hasCtx = s.hasCtx
    rcases handleKeyDown_cases e s with h | h | h <;>
      simp only [h, hasCtx_undo, hasCtx_redo]

/-! ### Generic preservation along operation sequences -/

theorem run_nil (s : BoardState α) : run ([] : List (Op α)) s = s := rfl

theorem run_cons (o : Op α) (ops : List (Op α)) (s : BoardState α) :
    run (o :: ops) s = run ops (step o s) := rfl

theorem run_preserves (P : BoardState α → Prop)
    (hP : ∀ o s, P s → P (step o s)) :
    ∀ (ops : List (Op α)) (s : BoardState α), P s → P (run ops s) := by
  intro ops
  induction ops with
  | nil => intro s h; exact h
  | cons o ops ih =>
    intro s h
    rw [run_cons]
    exact ih _ (hP o s h)

theorem mount_true (blank : α) :
    mount true blank =
      { undoStack := [blank], redoStack := [], display := blank
        hasCtx := true, isDrawing := false } := rfl

theorem mount_false (blank : α) :
    mount false blank =
      { undoStack := [], redoStack := [], display := blank
        hasCtx := false, isDrawing := false } := rfl

/-! ### The combined size of the two stacks never exceeds 50 -/

theorem histSize_undo (s : BoardState α) : histSize (undo s) = histSize s := by
  by_cases hc : s.hasCtx = true
  · by_cases hu : 1 < s.undoStack.length
    · rw [undo_of_ctx s hc hu]
      simp only [histSize, List.length_dropLast, List.length_append,
        List.length_cons, List.length_nil]
      omega
    · rw [undo_noop s (Or.inr (by omega))]
  · rw [undo_noop s (Or.inl (by simpa using hc))]

theorem histSize_redo (s : BoardState α) : histSize (redo s) = histSize s := by
  by_cases hc : s.hasCtx = true
  · by_cases hr : 0 < s.redoStack.length
    · rw [redo_of_ctx s hc hr]
      simp only [histSize, List.length_dropLast, List.length_append,
        List.length_cons, List.length_nil]
      omega
    · rw [redo_noop s (Or.inr (by simpa using List.length_eq_zero.mp (by omega)))]
  · rw [redo_noop s (Or.inl (by simpa using hc))]

theorem histSize_saveState_le (s : BoardState α) (h : histSize s ≤ 50) :
    histSize (saveState s) ≤ 50 := by
  by_cases hc : s.hasCtx = true
  · rw [saveState_of_ctx s hc]
    simp only [histSize, List.length_nil, Nat.add_zero] at h ⊢
    split
    · simp only [List.length_tail, List.length_append, List.length_cons,
        List.length_nil]
      omega
    · rename_i hlen
      simp only [List.length_append, List.length_cons, List.length_nil]
      omega
  · rwa [saveState_no_ctx s (by simpa using hc)]

theorem histSize_step_le (o : Op α) (s : BoardState α) (h : histSize s ≤ 50) :
    histSize (step o s) ≤ 50 := by
  cases o with
  | save => exact histSize_saveState_le s h
  | undo => show histSize (undo s) ≤ 50; rw [histSize_undo]; exact h
  | redo => show histSize (redo s) ≤ 50; rw [histSize_redo]; exact h
  | start => exact h
  | draw b =>
    show histSize (draw b s) ≤ 50
    unfold draw; split
    · exact h
    · exact h
  | stop =>
    show histSize (stopDrawing s) ≤ 50
    unfold stopDrawing; split
    · exact histSize_saveState_le s h
    · exact h
  | clear b =>
    show histSize (clearCanvas b s) ≤ 50
    unfold clearCanvas; split
    · exact histSize_saveState_le { s with display := b } h
    · exact h
  | exportImg => exact h
  | key e =>
    show histSize (handleKeyDown e s) ≤ 50
    rcases handleKeyDown_cases e s with he | he | he <;> rw [he]
    · rw [histSize_undo]; exact h
    · rw [histSize_redo]; exact h
    · exact h

theorem histSize_mount (c : Bool) (b : α) : histSize (mount c b) ≤ 50 := by
  cases c
  · rw [mount_false]; simp [histSize]
  · rw [mount_true]; simp [histSize]

theorem histSize_reachable (s : BoardState α) (h : Reachable s) :
    histSize s ≤ 50 := by
  obtain ⟨b, c, ops, rfl⟩ := h
  exact run_preserves (fun t => histSize t ≤ 50) histSize_step_le ops _
    (histSize_mount c b)

/-! ### Once mounted with a context, the undo stack never becomes empty -/

theorem undoStack_ne_nil_saveState (s : BoardState α) (h : s.undoStack ≠ []) :
    (saveState s).undoStack ≠ [] := by
  by_cases hc : s.hasCtx = true
  · rw [saveState_of_ctx s hc]
    show (if 50 < s.undoStack.length + 1
      then (s.undoStack ++ [s.display]).tail
      else s.undoStack ++ [s.display]) ≠ []
    split
    · rename_i hlen
      rw [← List.length_pos, List.length_tail, List.length_append]
      simp only [List.length_cons, List.length_nil]
      omega
    · simp
  · rwa [saveState_no_ctx s (by simpa using hc)]

theorem undoStack_ne_nil_undo (s : BoardState α) (h : s.undoStack ≠ []) :
    (undo s).undoStack ≠ [] := by
  by_cases hc : s.hasCtx = true
  · by_cases hu : 1 < s.undoStack.length
    · rw [undo_of_ctx s hc hu]
      show s.undoStack.dropLast ≠ []
      rw [← List.length_pos, List.length_dropLast]
      omega
    · rw [undo_noop s (Or.inr (by omega))]; exact h
  · rw [undo_noop s (Or.inl (by simpa using hc))]; exact h

theorem undoStack_ne_nil_redo (s : BoardState α) (h : s.undoStack ≠ []) :
    (redo s).undoStack ≠ [] := by
  by_cases hc : s.hasCtx = true
  · by_cases hr : 0 < s.redoStack.length
    · rw [redo_of_ctx s hc hr]
      show s.undoStack ++ [s.display] ≠ []
      simp
    · rw [redo_noop s (Or.inr (by simpa using List.length_eq_zero.mp (by omega)))]
      exact h
  · rw [redo_noop s (Or.inl (by simpa using hc))]; exact h

theorem undoStack_ne_nil_step (o : Op α) (s : BoardState α)
    (h : s.undoStack ≠ []) : (step o s).undoStack ≠ [] := by
  cases o with
  | save => exact undoStack_ne_nil_saveState s h
  | undo => exact undoStack_ne_nil_undo s h
  | redo => exact undoStack_ne_nil_redo s h
  | start => exact h
  | draw b =>
    show (draw b s).undoStack ≠ []
    unfold draw; split
    · exact h
    · exact h
  | stop =>
    show (stopDrawing s).undoStack ≠ []
    unfold stopDrawing; split
    · exact undoStack_ne_nil_saveState s h
    · exact h
  | clear b =>
    show (clearCanvas b s).undoStack ≠ []
    unfold clearCanvas; split
    · exact undoStack_ne_nil_saveState { s with display := b } h
    · exact h
  | exportImg => exact h
  | key e =>
    show (handleKeyDown e s).undoStack ≠ []
    rcases handleKeyDown_cases e s with he | he | he <;> rw [he]
    · exact undoStack_ne_nil_undo s h
    · exact undoStack_ne_nil_redo s h
    · exact h

/-! ### Without a context, no handler ever touches the stacks -/

theorem stacks_step_no_ctx (o : Op α) (s : BoardState α)
    (h : s.hasCtx = false) :
    (step o s).undoStack = s.undoStack ∧ (step o s).redoStack = s.redoStack := by
  have hsave : saveState s = s := saveState_no_ctx s h
  cases o with
  | save => rw [show step Op.save s = saveState s from rfl, hsave]; exact ⟨rfl, rfl⟩
  | undo => rw [show step Op.undo s = undo s from rfl, undo_noop s (Or.inl h)]
            exact ⟨rfl, rfl⟩
  | redo => rw [show step Op.redo s = redo s from rfl, redo_noop s (Or.inl h)]
            exact ⟨rfl, rfl⟩
  | start => exact ⟨rfl, rfl⟩
  | draw b =>
    show (draw b s).undoStack = _ ∧ (draw b s).redoStack = _
    unfold draw; split
    · exact ⟨rfl, rfl⟩
    · exact ⟨rfl, rfl⟩
  | stop =>
    show (stopDrawing s).undoStack = _ ∧ (stopDrawing s).redoStack = _
    unfold stopDrawing; split
    · rw [hsave]; exact ⟨rfl, rfl⟩
    · exact ⟨rfl, rfl⟩
  | clear b =>
    show (clearCanvas b s).undoStack = _ ∧ (clearCanvas b s).redoStack = _
    unfold clearCanvas; split
    · rename_i hcc; rw [h] at hcc; cases hcc
    · exact ⟨rfl, rfl⟩
  | exportImg => exact ⟨rfl, rfl⟩
  | key e =>
    show (handleKeyDown e s).undoStack = _ ∧ (handleKeyDown e s).redoStack = _
    rcases handleKeyDown_cases e s with he | he | he <;> rw [he]
    · rw [undo_noop s (Or.inl h)]; exact ⟨rfl, rfl⟩
    · rw [redo_noop s (Or.inl h)]; exact ⟨rfl, rfl⟩
    · exact ⟨rfl, rfl⟩

theorem no_ctx_redo_empty_step (o : Op α) (s : BoardState α)
    (h : s.hasCtx = false → s.redoStack = []) :
    (step o s).hasCtx = false → (step o s).redoStack = [] := by
  intro hc
  rw [hasCtx_step] at hc
  rw [(stacks_step_no_ctx o s hc).2]
  exact h hc

theorem no_ctx_redo_empty_reachable (s : BoardState α) (h : Reachable s) :
    s.hasCtx = false → s.redoStack = [] := by
  obtain ⟨b, c, ops, rfl⟩ := h
  refine run_preserves (fun t => t.hasCtx = false → t.redoStack = [])
    no_ctx_redo_empty_step ops _ ?_
  cases c
  · rw [mount_false]; intro; rfl
  · rw [mount_true]; intro; rfl

/-! ### Helper lemmas about the last element of a list -/

theorem getLast?_eq_some_getLastD (l : List α) (d : α) (h : l ≠ []) :
    l.getLast? = some (l.getLastD d) := by
  cases hl : l.getLast? with
  | none => exact absurd (List.getLast?_eq_none_iff.mp hl) h
  | some a => rw [List.getLastD_eq_getLast?, hl]; rfl

theorem getLastD_eq_of_forall (b : α) :
    ∀ (l : List α), (∀ x ∈ l, x = b) → l ≠ [] → ∀ d, l.getLastD d = b := by
  intro l
  induction l with
  | nil => intro _ hne; exact absurd rfl hne
  | cons a t ih =>
    intro h _ d
    rw [List.getLastD_cons]
    by_cases hte : t = []
    · subst hte; exact h a (by simp)
    · exact ih (fun x hx => h x (List.mem_cons_of_mem a hx)) hte a

/-! ### Without strokes, every snapshot is the initial blank buffer

Restricted to the three history operations, the displayed buffer is
never repainted, so every snapshot captured by `saveState`, `undo` or
`redo` is the buffer that was displayed at mount time. -/

theorem allBlank_saveState (blank : α) (s : BoardState α)
    (h : AllBlank blank s) : AllBlank blank (saveState s) := by
  obtain ⟨hc, hd, hu, hr, hne⟩ := h
  rw [saveState_of_ctx s hc]
  refine ⟨hc, hd, ?_, by simp, ?_⟩
  · intro x hx
    have hx2 : x ∈ s.undoStack ++ [s.display] := by
      revert hx
      split
      · exact fun hx => List.mem_of_mem_tail hx
      · exact fun hx => hx
    rcases List.mem_append.mp hx2 with h1 | h1
    · exact hu x h1
    · rw [List.mem_singleton.mp h1]; exact hd
  · show (if 50 < s.undoStack.length + 1
      then (s.undoStack ++ [s.display]).tail
      else s.undoStack ++ [s.display]) ≠ []
    split
    · rw [← List.length_pos, List.length_tail, List.length_append]
      simp only [List.length_cons, List.length_nil]
      omega
    · simp

theorem allBlank_undo (blank : α) (s : BoardState α)
    (h : AllBlank blank s) : AllBlank blank (undo s) := by
  obtain ⟨hc, hd, hu, hr, hne⟩ := h
  by_cases hlen : 1 < s.undoStack.length
  · rw [undo_of_ctx s hc hlen]
    have hdropne : s.undoStack.dropLast ≠ [] := by
      rw [← List.length_pos, List.length_dropLast]; omega
    have hdropall : ∀ x ∈ s.undoStack.dropLast, x = blank :=
      fun x hx => hu x ((List.dropLast_sublist s.undoStack).subset hx)
    refine ⟨hc, ?_, hdropall, ?_, hdropne⟩
    · exact getLastD_eq_of_forall blank _ hdropall hdropne s.display
    · intro x hx
      rcases List.mem_append.mp hx with h1 | h1
      · exact hr x h1
      · rw [List.mem_singleton.mp h1]; exact hd
  · rw [undo_noop s (Or.inr (by omega))]
    exact ⟨hc, hd, hu, hr, hne⟩

theorem allBlank_redo (blank : α) (s : BoardState α)
    (h : AllBlank blank s) : AllBlank blank (redo s) := by
  obtain ⟨hc, hd, hu, hr, hne⟩ := h
  by_cases hlen : 0 < s.redoStack.length
  · rw [redo_of_ctx s hc hlen]
    have hredone : s.redoStack ≠ [] := by rw [← List.length_pos] at hne ⊢; omega
    refine ⟨hc, ?_, ?_, ?_, by simp⟩
    · exact getLastD_eq_of_forall blank _ hr hredone s.display
    · intro x hx
      rcases List.mem_append.mp hx with h1 | h1
      · exact hu x h1
      · rw [List.mem_singleton.mp h1]; exact hd
    · exact fun x hx => hr x ((List.dropLast_sublist s.redoStack).subset hx)
  · rw [redo_noop s (Or.inr (List.length_eq_zero.mp (by omega)))]
    exact ⟨hc, hd, hu, hr, hne⟩

theorem run_preserves_SUR (P : BoardState α → Prop)
    (hs : ∀ s, P s → P (saveState s))
    (hu : ∀ s, P s → P (undo s))
    (hr : ∀ s, P s → P (redo s)) :
    ∀ (ops : List (Op α)),
      (∀ o ∈ ops, o = Op.save ∨ o = Op.undo ∨ o = Op.redo) →
      ∀ s, P s → P (run ops s) := by
  intro ops
  induction ops with
  | nil => intro _ s h; exact h
  | cons o ops ih =>
    intro hmem s h
    rw [run_cons]
    have hop := hmem o (by simp)
    have hrest : ∀ o ∈ ops, o = Op.save ∨ o = Op.undo ∨ o = Op.redo :=
      fun o ho => hmem o (List.mem_cons_of_mem _ ho)
    rcases hop with rfl | rfl | rfl
    · exact ih hrest _ (hs s h)
    · exact ih hrest _ (hu s h)
    · exact ih hrest _ (hr s h)

theorem allBlank_mount (blank : α) : AllBlank blank (mount true blank) := by
  rw [mount_true]
  exact ⟨rfl, rfl, by simp, by simp, by simp⟩

/-! ### Committing strokes from a quiescent state -/

theorem run_strokeOps (bs : List α) :
    ∀ s : BoardState α,
      run (strokeOps bs) s = bs.foldl (fun t b => commitStroke b t) s := by
  induction bs with
  | nil => intro s; rfl
  | cons b bs ih =>
    intro s
    show run (strokeOps bs) (stopDrawing (draw b (startDrawing s)))
      = List.foldl _ (commitStroke b s) bs
    rw [ih]
    rfl

theorem commitStroke_of_ctx (b : α) (s : BoardState α)
    (hc : s.hasCtx = true) (hlen : s.undoStack.length + 1 ≤ 50) :
    commitStroke b s =
      { undoStack := s.undoStack ++ [b], redoStack := []
        display := b, hasCtx := true, isDrawing := false } := by
  unfold commitStroke startDrawing draw stopDrawing
  simp only [hc, Bool.and_true, if_pos rfl, if_true]
  rw [saveState_of_ctx _ rfl]
  have : ¬ (50 < s.undoStack.length + 1) := by omega
  simp [this]

theorem commit_run (bs : List α) :
    ∀ s : BoardState α, s.hasCtx = true → s.isDrawing = false →
      s.redoStack = [] → s.undoStack.length + bs.length ≤ 50 →
      bs.foldl (fun t b => commitStroke b t) s =
        { undoStack := s.undoStack ++ bs, redoStack := []
          display := bs.getLastD s.display, hasCtx := true
          isDrawing := false } := by
  induction bs with
  | nil =>
    intro s h1 h2 h3 _
    show s = _
    cases s
    simp only at h1 h2 h3
    subst h1; subst h2; subst h3
    simp
  | cons b bs ih =>
    intro s h1 h2 h3 hlen
    rw [List.foldl_cons,
      commitStroke_of_ctx b s h1 (by simp only [List.length_cons] at hlen; omega),
      ih _ rfl rfl rfl
        (by simp only [List.length_append, List.length_cons, List.length_nil] at hlen ⊢
            omega)]
    rw [List.getLastD_cons]
    simp

/-! ### Undoing down the stack -/

theorem undo_iter_display (blank : α) :
    ∀ (t : List α) (r : List α) (dr : Bool),
      ((undo)^[t.length]
        { undoStack := blank :: t, redoStack := r
          display := (blank :: t).getLastD blank
          hasCtx := true, isDrawing := dr } : BoardState α).display = blank := by
  intro t
  induction t using List.reverseRecOn with
  | nil => intro r dr; rfl
  | append_singleton t a ih =>
    intro r dr
    have hlen : (t ++ [a]).length = t.length + 1 := by simp
    rw [hlen, Function.iterate_succ_apply]
    have hstate : undo
        ({ undoStack := blank :: (t ++ [a]), redoStack := r
           display := (blank :: (t ++ [a])).getLastD blank
           hasCtx := true, isDrawing := dr } : BoardState α) =
        { undoStack := blank :: t
          redoStack := r ++ [(blank :: (t ++ [a])).getLastD blank]
          display := (blank :: t).getLastD blank
          hasCtx := true, isDrawing := dr } := by
      rw [undo_of_ctx _ rfl (by simp)]
      have hdrop : (blank :: (t ++ [a])).dropLast = blank :: t := by
        rw [show blank :: (t ++ [a]) = (blank :: t) ++ [a] from rfl,
          List.dropLast_concat]
      simp only [hdrop, List.getLastD_cons]
    rw [hstate]
    exact ih (r ++ [(blank :: (t ++ [a])).getLastD blank]) dr

/-! ### The claims -/

/-- C1: In every state reachable after mount by any sequence of
saveState, undo, redo, stroke-commit and clear operations (the run
relation also admits the remaining handlers, which only strengthens the
statement), the undo stack contains at most 50 entries; and when a
saveState push makes the undo stack exceed 50 entries, the oldest
(first) entry is removed. -/
theorem c1_undo_stack_bounded (s : BoardState α) (h : Reachable s) :
    s.undoStack.length ≤ 50 ∧
    (s.hasCtx = true → 50 ≤ s.undoStack.length →
      (saveState s).undoStack = (s.undoStack ++ [s.display]).tail) := by
  constructor
  · have hb := histSize_reachable s h
    unfold histSize at hb
    omega
  · intro hc hlen
    rw [saveState_of_ctx s hc]
    show (if 50 < s.undoStack.length + 1
      then (s.undoStack ++ [s.display]).tail
      else s.undoStack ++ [s.display]) = (s.undoStack ++ [s.display]).tail
    rw [if_pos (by omega)]

set_option maxRecDepth 4000 in
theorem c1_undo_stack_bounded_witness :
    (demoState (List.replicate 60 Op.save)).undoStack.length ≤ 50 ∧
    (saveState (demoState (List.replicate 60 Op.save))).undoStack =
      ((demoState (List.replicate 60 Op.save)).undoStack ++
        [(demoState (List.replicate 60 Op.save)).display]).tail :=
  ⟨(c1_undo_stack_bounded _ ⟨0, true, List.replicate 60 Op.save, rfl⟩).1,
   (c1_undo_stack_bounded _ ⟨0, true, List.replicate 60 Op.save, rfl⟩).2
     (by decide) (by decide)⟩

/-- C10: In every reachable state the undo stack length plus the redo
stack length is at most 50; undo and redo leave that sum unchanged; and
a saveState with a context empties the redo stack and keeps the undo
stack within 50 entries. -/
theorem c10_stack_sum_bounded (s : BoardState α) (h : Reachable s) :
    s.undoStack.length + s.redoStack.length ≤ 50 ∧
    (undo s).undoStack.length + (undo s).redoStack.length
      = s.undoStack.length + s.redoStack.length ∧
    (redo s).undoStack.length + (redo s).redoStack.length
      = s.undoStack.length + s.redoStack.length ∧
    (s.hasCtx = true → (saveState s).redoStack = [] ∧
      (saveState s).undoStack.length ≤ 50) := by
  have hb := histSize_reachable s h
  unfold histSize at hb
  have hu := histSize_undo s
  have hr := histSize_redo s
  unfold histSize at hu hr
  refine ⟨hb, hu, hr, ?_⟩
  intro hc
  have hs := histSize_saveState_le s (by unfold histSize; omega)
  rw [saveState_of_ctx s hc] at hs ⊢
  unfold histSize at hs
  refine ⟨rfl, ?_⟩
  simpa using hs

theorem c10_stack_sum_bounded_witness :
    (demoState [Op.save, Op.undo]).undoStack.length +
      (demoState [Op.save, Op.undo]).redoStack.length ≤ 50 ∧
    (undo (demoState [Op.save, Op.undo])).undoStack.length +
      (undo (demoState [Op.save, Op.undo])).redoStack.length
      = (demoState [Op.save, Op.undo]).undoStack.length +
        (demoState [Op.save, Op.undo]).redoStack.length ∧
    (redo (demoState [Op.save, Op.undo])).undoStack.length +
      (redo (demoState [Op.save, Op.undo])).redoStack.length
      = (demoState [Op.save, Op.undo]).undoStack.length +
        (demoState [Op.save, Op.undo]).redoStack.length ∧
    ((demoState [Op.save, Op.undo]).hasCtx = true →
      (saveState (demoState [Op.save, Op.undo])).redoStack = [] ∧
      (saveState (demoState [Op.save, Op.undo])).undoStack.length ≤ 50) :=
  c10_stack_sum_bounded _ ⟨0, true, [Op.save, Op.undo], rfl⟩

/-- C5: After a successful mount (which pushes the initial blank
snapshot) the undo stack is nonempty in every reachable state: no
operation, including undo, can make it empty. -/
theorem c5_undo_stack_never_empty (blank : α) (s : BoardState α)
    (h : ReachableCtx blank s) : s.undoStack ≠ [] := by
  obtain ⟨ops, rfl⟩ := h
  refine run_preserves (fun t => t.undoStack ≠ []) undoStack_ne_nil_step ops _ ?_
  rw [mount_true]
  simp

theorem c5_undo_stack_never_empty_witness :
    (demoState (List.replicate 5 Op.undo)).undoStack ≠ [] :=
  c5_undo_stack_never_empty 0 _ ⟨List.replicate 5 Op.undo, rfl⟩

/-- C4: In every reachable state, a stroke commit (stopDrawing while
drawing) and clearCanvas invoke saveState, and afterwards the redo stack
is empty regardless of its previous contents.  (When the context is
missing, saveState is a guarded no-op; in that case the redo stack was
already empty, since only undo with a context can populate it.) -/
theorem c4_commit_clears_redo (blank : α) (s : BoardState α)
    (h : Reachable s) :
    (s.isDrawing = true → stopDrawing s = { saveState s with isDrawing := false }) ∧
    (s.hasCtx = true → clearCanvas blank s = saveState { s with display := blank }) ∧
    (s.isDrawing = true → (stopDrawing s).redoStack = []) ∧
    (clearCanvas blank s).redoStack = [] := by
  have hinv := no_ctx_redo_empty_reachable s h
  refine ⟨?_, ?_, ?_, ?_⟩
  · intro hd; unfold stopDrawing; rw [if_pos hd]
  · intro hc; unfold clearCanvas; rw [if_pos hc]
  · intro hd
    unfold stopDrawing
    rw [if_pos hd]
    show (saveState s).redoStack = []
    by_cases hc : s.hasCtx = true
    · rw [saveState_of_ctx s hc]
    · rw [saveState_no_ctx s (by simpa using hc)]
      exact hinv (by simpa using hc)
  · by_cases hc : s.hasCtx = true
    · unfold clearCanvas
      rw [if_pos hc, saveState_of_ctx { s with display := blank } hc]
    · unfold clearCanvas
      rw [if_neg hc]
      exact hinv (by simpa using hc)

theorem c4_commit_clears_redo_witness :
    ((demoState [Op.save, Op.undo, Op.start, Op.draw 7]).isDrawing = true →
      stopDrawing (demoState [Op.save, Op.undo, Op.start, Op.draw 7]) =
        { saveState (demoState [Op.save, Op.undo, Op.start, Op.draw 7]) with
            isDrawing := false }) ∧
    ((demoState [Op.save, Op.undo, Op.start, Op.draw 7]).hasCtx = true →
      clearCanvas 0 (demoState [Op.save, Op.undo, Op.start, Op.draw 7]) =
        saveState { demoState [Op.save, Op.undo, Op.start, Op.draw 7] with
            display := 0 }) ∧
    ((demoState [Op.save, Op.undo, Op.start, Op.draw 7]).isDrawing = true →
      (stopDrawing (demoState [Op.save, Op.undo, Op.start, Op.draw 7])).redoStack
        = []) ∧
    (clearCanvas 0 (demoState [Op.save, Op.undo, Op.start, Op.draw 7])).redoStack
      = [] :=
  c4_commit_clears_redo 0 _ ⟨0, true, [Op.save, Op.undo, Op.start, Op.draw 7], rfl⟩

/-- C6: In every reachable state, redo is a no-op when the redo stack is
empty; otherwise it pops one snapshot off the redo stack, pushes the
currently displayed buffer onto the undo stack, and makes the popped
snapshot (the last element of the redo stack) the displayed buffer.
(A reachable state with a nonempty redo stack always has a context, so
the context guard cannot fire in the second case.) -/
theorem c6_redo_behavior (s : BoardState α) (h : Reachable s) :
    (s.redoStack = [] → redo s = s) ∧
    (s.redoStack ≠ [] →
      (redo s).redoStack = s.redoStack.dropLast ∧
      (redo s).undoStack = s.undoStack ++ [s.display] ∧
      s.redoStack.getLast? = some ((redo s).display)) := by
  constructor
  · intro he; exact redo_noop s (Or.inr he)
  · intro hne
    have hc : s.hasCtx = true := by
      by_cases hcc : s.hasCtx = true
      · exact hcc
      · exact absurd (no_ctx_redo_empty_reachable s h (by simpa using hcc)) hne
    rw [redo_of_ctx s hc (by rwa [List.length_pos])]
    exact ⟨rfl, rfl, getLast?_eq_some_getLastD s.redoStack s.display hne⟩

theorem c6_redo_behavior_witness :
    ((demoState [Op.save, Op.undo]).redoStack = [] →
      redo (demoState [Op.save, Op.undo]) = demoState [Op.save, Op.undo]) ∧
    ((demoState [Op.save, Op.undo]).redoStack ≠ [] →
      (redo (demoState [Op.save, Op.undo])).redoStack
        = (demoState [Op.save, Op.undo]).redoStack.dropLast ∧
      (redo (demoState [Op.save, Op.undo])).undoStack
        = (demoState [Op.save, Op.undo]).undoStack ++
            [(demoState [Op.save, Op.undo]).display] ∧
      (demoState [Op.save, Op.undo]).redoStack.getLast?
        = some ((redo (demoState [Op.save, Op.undo])).display)) :=
  c6_redo_behavior _ ⟨0, true, [Op.save, Op.undo], rfl⟩

/-- C8: Every guarded operation whose guard fails returns silently with
the whole state unchanged: all handlers when the context or canvas is
missing, undo when the undo stack has fewer than 2 entries, and redo
when the redo stack is empty.  All embedded handlers are total
functions, so no error is raised on these paths. -/
theorem c8_guard_failures_silent (blank : α) (s : BoardState α) :
    (s.hasCtx = false →
      saveState s = s ∧ undo s = s ∧ redo s = s ∧
      clearCanvas blank s = s ∧ exportImage s = s) ∧
    (s.undoStack.length < 2 → undo s = s) ∧
    (s.redoStack = [] → redo s = s) := by
  refine ⟨?_, ?_, ?_⟩
  · intro hc
    refine ⟨saveState_no_ctx s hc, undo_noop s (Or.inl hc),
      redo_noop s (Or.inl hc), ?_, rfl⟩
    unfold clearCanvas
    rw [if_neg (by simp [hc])]
  · intro hlen
    exact undo_noop s (Or.inr (by omega))
  · intro he
    exact redo_noop s (Or.inr he)

theorem c8_guard_failures_silent_witness :
    (saveState noCtxState = noCtxState ∧ undo noCtxState = noCtxState ∧
     redo noCtxState = noCtxState ∧ clearCanvas 0 noCtxState = noCtxState ∧
     exportImage noCtxState = noCtxState) ∧
    undo (demoState []) = demoState [] ∧
    redo (demoState []) = demoState [] :=
  ⟨(c8_guard_failures_silent 0 noCtxState).1 rfl,
   (c8_guard_failures_silent 0 (demoState [])).2.1 (by decide),
   (c8_guard_failures_silent 0 (demoState [])).2.2 (by decide)⟩

/-- C3: From any state whose undo stack has at least 2 entries, undo
followed by redo leaves the displayed buffer pixel-identical to the
buffer displayed before the undo. -/
theorem c3_undo_then_redo_restores_display (s : BoardState α)
    (h : 2 ≤ s.undoStack.length) :
    (redo (undo s)).display = s.display := by
  by_cases hc : s.hasCtx = true
  · rw [undo_of_ctx s hc (by omega)]
    rw [redo_of_ctx
      { s with redoStack := s.redoStack ++ [s.display]
               undoStack := s.undoStack.dropLast
               display := s.undoStack.dropLast.getLastD s.display }
      hc (by simp)]
    simp [List.getLastD_concat]
  · rw [undo_noop s (Or.inl (by simpa using hc)),
      redo_noop s (Or.inl (by simpa using hc))]

theorem c3_undo_then_redo_restores_display_witness :
    2 ≤ twoSnapshotState.undoStack.length ∧
    (redo (undo twoSnapshotState)).display = twoSnapshotState.display :=
  ⟨by decide, c3_undo_then_redo_restores_display twoSnapshotState (by decide)⟩

/-- C2: In every state reachable after a successful mount by saveState,
undo and redo operations alone, the last element of the undo stack is
the currently displayed raster buffer.  (These three operations never
repaint the canvas, so every buffer in such a state equals the
mount-time blank buffer.) -/
theorem c2_last_undo_entry_is_display (blank : α) (s : BoardState α)
    (h : ReachableSUR blank s) :
    s.undoStack.getLast? = some s.display := by
  obtain ⟨ops, hops, rfl⟩ := h
  have hP : AllBlank blank (run ops (mount true blank)) :=
    run_preserves_SUR (AllBlank blank) (allBlank_saveState blank)
      (allBlank_undo blank) (allBlank_redo blank) ops hops _
      (allBlank_mount blank)
  obtain ⟨-, hd, hall, -, hne⟩ := hP
  rw [hd, getLast?_eq_some_getLastD _ blank hne,
    getLastD_eq_of_forall blank _ hall hne blank]

theorem c2_last_undo_entry_is_display_witness :
    (demoState [Op.save, Op.undo, Op.redo]).undoStack.getLast? =
      some (demoState [Op.save, Op.undo, Op.redo]).display :=
  c2_last_undo_entry_is_display 0 _
    ⟨[Op.save, Op.undo, Op.redo], by simp, rfl⟩

/-- C7: Starting from the freshly mounted state, committing N strokes
with N at most 49 leaves the undo stack with exactly N+1 entries, and
undoing N times then displays the initial blank canvas again. -/
theorem c7_strokes_then_undos (blank : α) (bs : List α)
    (h : bs.length ≤ 49) :
    (run (strokeOps bs) (mount true blank)).undoStack.length = bs.length + 1 ∧
    (undo^[bs.length] (run (strokeOps bs) (mount true blank))).display
      = blank := by
  rw [run_strokeOps, mount_true,
    commit_run bs _ rfl rfl rfl
      (by simp only [List.length_cons, List.length_nil]; omega)]
  constructor
  · simp
  · have hiter := undo_iter_display blank bs [] false
    rw [List.getLastD_cons] at hiter
    rw [show ([blank] ++ bs : List α) = blank :: bs from List.singleton_append]
    exact hiter

theorem c7_strokes_then_undos_witness :
    ([5, 6, 7] : List Nat).length ≤ 49 ∧
    ((run (strokeOps [5, 6, 7]) (mount true (0 : Nat))).undoStack.length
        = ([5, 6, 7] : List Nat).length + 1 ∧
     (undo^[([5, 6, 7] : List Nat).length]
        (run (strokeOps [5, 6, 7]) (mount true (0 : Nat)))).display = 0) :=
  ⟨by decide, c7_strokes_then_undos 0 [5, 6, 7] (by decide)⟩

/-- C9: Keyboard dispatch: Ctrl/Cmd with key z and no Shift invokes
undo; Ctrl/Cmd with key z and Shift invokes redo; Ctrl/Cmd with key y
invokes redo; any event without Ctrl/Cmd, or whose (lower-cased) key is
neither z nor y, leaves the state untouched.  Key comparison is on the
lower-cased key string, exactly as in the source
(`lowerKey e.keyCase() === "z"`). -/
theorem c9_keyboard_shortcuts (e : KeyEvent) (s : BoardState α) :
    ((e.ctrlKey || e.metaKey) = true → lowerKey e.key = "z" →
      e.shiftKey = false → handleKeyDown e s = undo s) ∧
    ((e.ctrlKey || e.metaKey) = true → lowerKey e.key = "z" →
      e.shiftKey = true → handleKeyDown e s = redo s) ∧
    ((e.ctrlKey || e.metaKey) = true → lowerKey e.key = "y" →
      handleKeyDown e s = redo s) ∧
    ((e.ctrlKey || e.metaKey) = false ∨
        (lowerKey e.key ≠ "z" ∧ lowerKey e.key ≠ "y") →
      handleKeyDown e s = s) := by
  refine ⟨?_, ?_, ?_, ?_⟩
  · intro h1 h2 h3
    simp [handleKeyDown, beq_iff_eq, h1, h2, h3]
  · intro h1 h2 h3
    simp [handleKeyDown, beq_iff_eq, h1, h2, h3]
  · intro h1 h2
    have hz : lowerKey e.key ≠ "z" := by
      rw [h2]; decide
    simp [handleKeyDown, beq_iff_eq, h1, h2, hz]
  · intro h
    rcases h with h1 | ⟨h2, h3⟩
    · simp [handleKeyDown, h1]
    · simp [handleKeyDown, beq_iff_eq, h2, h3]

theorem c9_keyboard_shortcuts_witness :
    handleKeyDown ⟨true, false, false, "z"⟩ (demoState [Op.save])
      = undo (demoState [Op.save]) ∧
    handleKeyDown ⟨true, false, true, "Z"⟩ (demoState [Op.save])
      = redo (demoState [Op.save]) ∧
    handleKeyDown ⟨false, true, false, "y"⟩ (demoState [Op.save])
      = redo (demoState [Op.save]) ∧
    handleKeyDown ⟨true, false, false, "a"⟩ (demoState [Op.save])
      = demoState [Op.save] :=
  ⟨(c9_keyboard_shortcuts _ _).1 rfl (by decide) rfl,
   (c9_keyboard_shortcuts _ _).2.1 rfl (by decide) rfl,
   (c9_keyboard_shortcuts _ _).2.2.1 rfl (by decide),
   (c9_keyboard_shortcuts _ _).2.2.2 (Or.inr (by decide))⟩

end DrawingBoard
